import Mathlib

/-!
Verification of the animated-GIF compositing and playback engine of
`raylib-goplus` (package `rgif`, file `raylib-gif/gif.go`) together with the
process-wide unloadable registry (package `raylib`).

Modelling conventions:
* Go `color.Color.RGBA()` results (16-bit per channel) are modelled as a
  `Sample` of natural numbers; `r.NewColor(uint8(x), ...)` truncates each
  channel to its low 8 bits, modelled as `% 256`.
* Go slices of pixels of length `w*h` are modelled as total maps
  `Nat → Color` indexed by `x + y*w`; every access performed by the source
  is in bounds, so the map view is exact on the touched indices.
* Go `float32` playback time is modelled as `ℚ`; the claims under study are
  about ordering and single-stepping, not rounding.
* `FrameDisposal` values are kept as their numeric codes
  (0 = None, 1 = DontDispose, 2 = RestoreBackground, 3 = RestorePrevious),
  exactly as produced by the cast `FrameDisposal(gif.Disposal[i])`.
-/

namespace RGif

/-- A 16-bit-per-channel color sample, as returned by Go's `color.RGBA()`. -/
structure Sample where
  red : Nat
  green : Nat
  blue : Nat
  alpha : Nat
deriving DecidableEq

/-- An 8-bit-per-channel stored color (`r.Color`). -/
structure Color where
  r : Nat
  g : Nat
  b : Nat
  a : Nat
deriving DecidableEq

/-- The zero value of `r.Color` (Go zero-initialised slice entries). -/
def czero : Color := ⟨0, 0, 0, 0⟩

/-- `r.NewColor(uint8(red), uint8(green), uint8(blue), uint8(alpha))`:
the Go `uint8` conversion keeps the low 8 bits of each channel. -/
def newColor (s : Sample) : Color :=
  ⟨s.red % 256, s.green % 256, s.blue % 256, s.alpha % 256⟩

/-- An `image.Rectangle` (`img.Rect`), integer corner coordinates. -/
structure Rect where
  minX : Int
  minY : Int
  maxX : Int
  maxY : Int
deriving DecidableEq

/-- A decoded raw frame: its bounding rectangle and its total sampling
function, modelling `img.At(x, y).RGBA()`. -/
structure Frame where
  rect : Rect
  sample : Nat → Nat → Sample

/-- Placeholder frame used as the (never reached) default of list lookups. -/
def defaultFrame : Frame := ⟨⟨0, 0, 0, 0⟩, fun _ _ => ⟨0, 0, 0, 0⟩⟩

/-- `gif.Image[i]` (the source only reads indices that exist). -/
def frameAt (frames : List Frame) (i : Nat) : Frame :=
  frames.getD i defaultFrame

/-!
## The `GifImage` struct and the playback state machine

`GifImage` carries the metadata and the playback cursor exactly as the Go
struct does (the GPU `Texture` field is external state outside this model;
`NextFrame`'s trailing `UpdateTexture` call only touches it).
-/

/-- The `GifImage` struct of `gif.go` (without the external GPU texture). -/
structure GifImage where
  width : Int
  height : Int
  frames : Nat
  timing : List Int
  disposal : List Nat
  pixels : List (Nat → Color)
  currentFrame : Nat
  lastFrameTime : ℚ

/-- `CurrentTiming`: `gif.Timing[gif.currentFrame]`. -/
def GifImage.CurrentTiming (g : GifImage) : Int :=
  g.timing.getD g.currentFrame 0

/-- `NextFrame`: subtract the current frame's delay from `lastFrameTime`,
advance `currentFrame` by one modulo `Frames`, clamp a negative remainder
to zero.  (The trailing `UpdateTexture` call is external.) -/
def GifImage.NextFrame (g : GifImage) : GifImage :=
  let t := g.lastFrameTime - (g.CurrentTiming : ℚ)
  { g with
    currentFrame := (g.currentFrame + 1) % g.frames,
    lastFrameTime := if t < 0 then 0 else t }

/-- `Step(timeSinceLastStep)`: add `timeSinceLastStep * 100` to
`lastFrameTime`; if the result is at least the current frame's delay,
call `NextFrame` (checked once, not in a loop). -/
def GifImage.Step (g : GifImage) (timeSinceLastStep : ℚ) : GifImage :=
  let g2 := { g with lastFrameTime := g.lastFrameTime + timeSinceLastStep * 100 }
  let diff := g2.lastFrameTime - (g2.CurrentTiming : ℚ)
  if 0 ≤ diff then g2.NextFrame else g2

/-- `Reset`: current frame to zero, timing buffer to zero. -/
def GifImage.Reset (g : GifImage) : GifImage :=
  { g with currentFrame := 0, lastFrameTime := 0 }

/-- One call made by a caller to the playback state machine. -/
inductive PlayerOp
  | step (dt : ℚ)
  | next
  | reset

/-- Apply one call to a `GifImage`. -/
def applyOp (g : GifImage) : PlayerOp → GifImage
  | .step dt => g.Step dt
  | .next => g.NextFrame
  | .reset => g.Reset

/-- Apply a finite sequence of calls in order. -/
def applyOps (g : GifImage) (ops : List PlayerOp) : GifImage :=
  ops.foldl applyOp g

/-- A call is valid when any elapsed time handed to `Step` is nonnegative. -/
def ValidOp : PlayerOp → Prop
  | .step dt => 0 ≤ dt
  | .next => True
  | .reset => True

/-!
## The compositor: the per-pixel resolution loop of `LoadGifFromFile`

The Go loop iterates `y` over `[0, h)` and, inside, `x` over `[0, w)`,
addressing `pixels[x+y*w]` and `clumative[x+y*w]`.  The pair `(x, y)` is in
bijection with the index `x + y*w ∈ [0, w*h)` and the loop visits those
indices exactly once each, in increasing order; the state carried across
iterations is the frame-local `pixels` buffer, the running `clumative`
buffer and the `previousNonDisposed` frame reference (modelled, following
its use, as an index into `gif.Image`).
-/

/-- Write one slot of a pixel buffer (`buf[i] = c` on a Go slice). -/
def updateF (f : Nat → Color) (i : Nat) (c : Color) : Nat → Color :=
  fun j => if j = i then c else f j

/-- The running state of the compositing loop. -/
structure RState where
  pixels : Nat → Color
  clum : Nat → Color
  prev : Nat

/-- The body of the per-pixel loop, a direct rendering of the Go `switch`
on `disposals[i]` (numeric codes; an unrecognised code matches no case and
leaves everything untouched).  `disp0` is `disposals[0]`, `i` the current
frame index, `d` the current frame's disposal code. -/
def pixelBody (frames : List Frame) (w disp0 i d : Nat) (st : RState)
    (x y : Nat) : RState :=
  let img := frameAt frames i
  let idx := x + y * w
  let s := img.sample x y
  if d = 0 then
    -- FrameDisposalNone: use all our pixels always
    let c := newColor s
    ⟨updateF st.pixels idx c, updateF st.clum idx c, i⟩
  else if d = 1 then
    -- FrameDisposalDontDispose
    if 0 < s.alpha then
      let c := newColor s
      ⟨updateF st.pixels idx c, updateF st.clum idx c, i⟩
    else
      ⟨updateF st.pixels idx (st.clum idx), st.clum, i⟩
  else if d = 2 then
    -- FrameDisposalRestoreBackground
    let s2 := if disp0 = 1 ∧ s.alpha = 0 then (frameAt frames 0).sample x y else s
    let c := newColor s2
    ⟨updateF st.pixels idx c, updateF st.clum idx c, st.prev⟩
  else if d = 3 then
    -- FrameDisposalRestorePrevious
    let s2 := if s.alpha = 0 then (frameAt frames st.prev).sample x y else s
    let c := newColor s2
    ⟨updateF st.pixels idx c, updateF st.clum idx c, st.prev⟩
  else
    st

/-- Process one frame: run the double pixel loop starting from a fresh
zero-initialised `pixels` buffer (`make([]r.Color, w*h)`), the running
`clumative` buffer and the current `previousNonDisposed` index. -/
def processFrame (frames : List Frame) (w h disp0 i d : Nat)
    (clum : Nat → Color) (prev : Nat) : RState :=
  (List.range h).foldl
    (fun st y => (List.range w).foldl
      (fun st2 x => pixelBody frames w disp0 i d st2 x y) st)
    ⟨fun _ => czero, clum, prev⟩

/-- The accumulator of the outer frame loop: the resolved frames produced
so far, the `clumative` buffer and the `previousNonDisposed` index. -/
structure ResolveAcc where
  images : List (Nat → Color)
  clum : Nat → Color
  prev : Nat

/-- One iteration of the outer frame loop (`for i, img := range gif.Image`):
`disposals[i] = FrameDisposal(gif.Disposal[i])`, run the pixel loop, store
the resolved frame at index `i`. -/
def resolveStep (frames : List Frame) (disposal : List Nat) (w h : Nat)
    (acc : ResolveAcc) (i : Nat) : ResolveAcc :=
  let st := processFrame frames w h (disposal.getD 0 0) i (disposal.getD i 0)
    acc.clum acc.prev
  ⟨acc.images ++ [st.pixels], st.clum, st.prev⟩

/-- The state of the outer frame loop after its first `k` iterations,
starting from a zeroed `clumative` buffer and
`previousNonDisposed := gif.Image[0]` (index 0). -/
def resolveState (frames : List Frame) (disposal : List Nat) (w h k : Nat) :
    ResolveAcc :=
  (List.range k).foldl (resolveStep frames disposal w h) ⟨[], fun _ => czero, 0⟩

/-- All resolved frames of the animation. -/
def resolveGif (frames : List Frame) (disposal : List Nat) (w h : Nat) :
    List (Nat → Color) :=
  (resolveState frames disposal w h frames.length).images

/-!
## `getGifDimensions`
-/

/-- The four accumulator variables of `getGifDimensions`, all starting at
their Go zero value. -/
structure DimAcc where
  lowestX : Int
  lowestY : Int
  highestX : Int
  highestY : Int
deriving DecidableEq

/-- One iteration of the `getGifDimensions` loop: the four accumulator
variables are independent scalars, each updated by its own `if` against
`img.Rect`. -/
def dimStep (acc : DimAcc) (img : Frame) : DimAcc :=
  ⟨if img.rect.minX < acc.lowestX then img.rect.minX else acc.lowestX,
   if img.rect.minY < acc.lowestY then img.rect.minY else acc.lowestY,
   if img.rect.maxX > acc.highestX then img.rect.maxX else acc.highestX,
   if img.rect.maxY > acc.highestY then img.rect.maxY else acc.highestY⟩

/-- `getGifDimensions`: fold the four accumulators (initialised to zero)
over every frame's rectangle and return
`(highestX - lowestX, highestY - lowestY)`. -/
def getGifDimensions (images : List Frame) : Int × Int :=
  let acc := images.foldl dimStep ⟨0, 0, 0, 0⟩
  (acc.highestX - acc.lowestX, acc.highestY - acc.lowestY)

/-!
## `LoadGifFromFile`

The outcome of a load: either a propagated `os.Open` error, a propagated
`gif.DecodeAll` error, a runtime panic, or a constructed `GifImage`.
The decoded input (`gif.GIF`) is the frame list plus the `Delay` and
`Disposal` tables.
-/

/-- The fields of the decoded `gif.GIF` value that the loader reads. -/
structure GifData where
  images : List Frame
  delay : List Int
  disposalCodes : List Nat

/-- Result of the post-decode part of `LoadGifFromFile`. -/
inductive LoadResult
  | panicked (msg : String)
  | ok (g : GifImage)

/-- The post-decode body of `LoadGifFromFile`:
`make([][]r.Color, frames, w*h)` panics when its length exceeds its
capacity; `previousNonDisposed := gif.Image[0]` panics on a zero-frame
animation; `gif.Disposal[i]` panics inside the frame loop when the
disposal table is shorter than the frame table.  Otherwise the compositor
runs and the `GifImage` is built with a zeroed playback cursor.
(`r.LoadTextureFromGo` is external GPU state, outside the model.) -/
def loadGif (gd : GifData) : LoadResult :=
  let wh := getGifDimensions gd.images
  let w := wh.1
  let h := wh.2
  let frames := gd.images.length
  if (frames : Int) > w * h then
    .panicked "makeslice: len out of range"
  else if frames = 0 then
    .panicked "index out of range"
  else if gd.disposalCodes.length < frames then
    .panicked "index out of range"
  else
    .ok { width := w, height := h, frames := frames, timing := gd.delay,
          disposal := gd.disposalCodes,
          pixels := resolveGif gd.images gd.disposalCodes w.toNat h.toNat,
          currentFrame := 0, lastFrameTime := 0 }

/-- Outcome of `LoadGifFromFile` including the two propagated error
returns that precede decoding. -/
inductive LoadOutcome
  | fileError
  | decodeError
  | panicked (msg : String)
  | ok (g : GifImage)

/-- `LoadGifFromFile`: `os.Open` may fail (error returned as-is, modelled
by `none`), `gif.DecodeAll` may fail (error returned as-is, modelled by
`some none`); otherwise the decoded data is processed by `loadGif`. -/
def loadGifFromFile (source : Option (Option GifData)) : LoadOutcome :=
  match source with
  | none => .fileError
  | some none => .decodeError
  | some (some gd) =>
    match loadGif gd with
    | .panicked msg => .panicked msg
    | .ok g => .ok g

/-!
## The unloadable registry (package `raylib`)

A registry slot holds an `Unloadable` reference or `nil`; distinct live
objects are modelled as distinct naturals, a slot as an `Option Nat`.
-/

/-- The global `unloadables` slice, a list of slots. -/
abbrev Registry := List (Option Nat)

/-- `make([]Unloadable, 100)`: one hundred `nil` slots. -/
def initialUnloadables : Registry := List.replicate 100 none

/-- `addUnloadable`: append the object to the slice. -/
def addUnloadable (reg : Registry) (u : Nat) : Registry := reg ++ [some u]

/-- `removeUnloadable`: when not inside `UnloadAll`, find the first slot
holding the object, overwrite it with the last slot, nil the last slot and
truncate by one; when no slot matches, do nothing. -/
def removeUnloadable (unloadingAll : Bool) (reg : Registry) (u : Nat) :
    Registry :=
  if unloadingAll then reg
  else
    match reg.findIdx? (fun slot => slot == some u) with
    | none => reg
    | some i =>
      (((reg.set i (reg.getLastD none)).set (reg.length - 1) none).dropLast)

/-- The sequence of `Unload` calls `UnloadAll` makes: every non-nil slot,
in slice order, exactly once.  (Re-entrant `removeUnloadable` calls made
by those `Unload` methods are suppressed by the `unloadingAll` flag, so
the iterated slice is not mutated mid-sweep.) -/
def unloadAllInvocations (reg : Registry) : List Nat := reg.filterMap id

/-- The registry after `UnloadAll`: truncated to empty (`unloadables[:0]`). -/
def unloadAllResult (_reg : Registry) : Registry := []

/-!
## Pointwise description of one frame's resolution

`resolveColor` states, as a function of a single pixel, what the loop
stores in `pixels[x+y*w]`; `clumAfter` what `clumative[x+y*w]` holds after
the frame (they agree except that an unrecognised disposal code writes
neither buffer, and `DontDispose` over a transparent sample copies the old
accumulation value into `pixels` without writing `clumative` — the stored
values still agree).  `prev` is the `previousNonDisposed` index in place
before the frame's loop began.
-/

/-- The color the pixel loop stores in `pixels[x+y*w]`. -/
def resolveColor (frames : List Frame) (disp0 i d prev : Nat) (old : Color)
    (x y : Nat) : Color :=
  let s := (frameAt frames i).sample x y
  if d = 0 then newColor s
  else if d = 1 then (if 0 < s.alpha then newColor s else old)
  else if d = 2 then
    newColor (if disp0 = 1 ∧ s.alpha = 0 then (frameAt frames 0).sample x y else s)
  else if d = 3 then
    newColor (if s.alpha = 0 then (frameAt frames prev).sample x y else s)
  else czero

/-- The color `clumative[x+y*w]` holds after the frame's loop. -/
def clumAfter (frames : List Frame) (disp0 i d prev : Nat) (old : Color)
    (x y : Nat) : Color :=
  if d ≤ 3 then resolveColor frames disp0 i d prev old x y else old

/-- The invariant of the per-pixel loop after it has visited the first `n`
indices (the loop visits `idx = x + y*w` for `y` then `x` increasing, i.e.
`idx = 0, 1, 2, ...` in order): visited slots of `pixels` and `clumative`
hold their final values, unvisited slots are untouched, and
`previousNonDisposed` has been retargeted to frame `i` exactly when the
disposal code writes it and at least one pixel was visited. -/
def FrameInv (frames : List Frame) (w disp0 i d : Nat) (clum0 : Nat → Color)
    (prev0 : Nat) (n : Nat) (st : RState) : Prop :=
  (∀ j, j < n →
    st.pixels j = resolveColor frames disp0 i d prev0 (clum0 j) (j % w) (j / w)) ∧
  (∀ j, n ≤ j → st.pixels j = czero) ∧
  (∀ j, j < n →
    st.clum j = clumAfter frames disp0 i d prev0 (clum0 j) (j % w) (j / w)) ∧
  (∀ j, n ≤ j → st.clum j = clum0 j) ∧
  st.prev = (if (d = 0 ∨ d = 1) ∧ 0 < n then i else prev0)

/-!
## Concrete inputs used by counterexamples and witnesses
-/

/-- A 1×1 frame, everywhere opaque red. -/
def redF : Frame := ⟨⟨0, 0, 1, 1⟩, fun _ _ => ⟨65535, 0, 0, 65535⟩⟩

/-- A 1×1 frame, everywhere opaque green. -/
def greenF : Frame := ⟨⟨0, 0, 1, 1⟩, fun _ _ => ⟨0, 65535, 0, 65535⟩⟩

/-- A 1×1 frame, everywhere opaque blue. -/
def blueF : Frame := ⟨⟨0, 0, 1, 1⟩, fun _ _ => ⟨0, 0, 65535, 65535⟩⟩

/-- A 1×1 frame, everywhere fully transparent. -/
def clearF : Frame := ⟨⟨0, 0, 1, 1⟩, fun _ _ => ⟨0, 0, 0, 0⟩⟩

/-- A 2×2 frame, everywhere opaque red. -/
def red2 : Frame := ⟨⟨0, 0, 2, 2⟩, fun _ _ => ⟨65535, 0, 0, 65535⟩⟩

/-- A 2×2 frame, everywhere fully transparent. -/
def clear2 : Frame := ⟨⟨0, 0, 2, 2⟩, fun _ _ => ⟨0, 0, 0, 0⟩⟩

/-- A 5×5 transparent frame (for the over-long animation example). -/
def f55 : Frame := ⟨⟨0, 0, 5, 5⟩, fun _ _ => ⟨0, 0, 0, 0⟩⟩

/-- A frame whose rectangle `[1,3) × [1,3)` does not touch the origin. -/
def offsetF : Frame := ⟨⟨1, 1, 3, 3⟩, fun _ _ => ⟨0, 0, 0, 0⟩⟩

/-- A loaded three-frame player with delays `[10, 10, 10]`. -/
def player3 : GifImage :=
  ⟨0, 0, 3, [10, 10, 10], [0, 0, 0], [], 0, 0⟩

/-- A loaded two-frame player whose first frame has delay `0`. -/
def playerZeroDelay : GifImage :=
  ⟨0, 0, 2, [0, 10], [0, 0], [], 0, 0⟩

/-!
## Playback lemmas
-/

/-- The playback invariant: cursor in range, timing buffer nonnegative,
frame count pinned. -/
def PlayerInv (n : Nat) (g : GifImage) : Prop :=
  g.currentFrame < n ∧ 0 ≤ g.lastFrameTime ∧ g.frames = n

lemma nextFrame_inv (n : Nat) (hn : 0 < n) (g : GifImage)
    (hg : PlayerInv n g) : PlayerInv n g.NextFrame := by
  obtain ⟨_, _, hfr⟩ := hg
  refine ⟨?_, ?_, hfr⟩
  · simpa [GifImage.NextFrame, hfr] using Nat.mod_lt _ hn
  · simp only [GifImage.NextFrame]
    split
    · exact le_refl 0
    · next h => exact le_of_not_lt h

lemma step_inv (n : Nat) (hn : 0 < n) (g : GifImage) (dt : ℚ)
    (hdt : 0 ≤ dt) (hg : PlayerInv n g) : PlayerInv n (g.Step dt) := by
  obtain ⟨hcf, hlt, hfr⟩ := hg
  have h2 : PlayerInv n { g with lastFrameTime := g.lastFrameTime + dt * 100 } := by
    refine ⟨hcf, ?_, hfr⟩
    have : (0:ℚ) ≤ dt * 100 := by positivity
    simpa using add_nonneg hlt this
  simp only [GifImage.Step]
  split
  · exact nextFrame_inv n hn _ h2
  · exact h2

lemma applyOp_inv (n : Nat) (hn : 0 < n) (g : GifImage) (op : PlayerOp)
    (hop : ValidOp op) (hg : PlayerInv n g) : PlayerInv n (applyOp g op) := by
  cases op with
  | step dt => exact step_inv n hn g dt hop hg
  | next => exact nextFrame_inv n hn g hg
  | reset => exact ⟨hn, le_refl 0, hg.2.2⟩

lemma applyOps_inv (n : Nat) (hn : 0 < n) :
    ∀ (ops : List PlayerOp) (g : GifImage), (∀ op ∈ ops, ValidOp op) →
      PlayerInv n g → PlayerInv n (applyOps g ops) := by
  intro ops
  induction ops with
  | nil => intro g _ hg; exact hg
  | cons op rest ih =>
    intro g hops hg
    have h1 : PlayerInv n (applyOp g op) :=
      applyOp_inv n hn g op (hops op (List.mem_cons_self op rest)) hg
    exact ih (applyOp g op) (fun o ho => hops o (List.mem_cons_of_mem op ho)) h1

/-!
## Claim C4
-/

/-- C4: one `Step(Δt)` call with Δt ≥ 0 adds Δt × 100 to `lastFrameTime`;
when the result reaches the current frame's delay it subtracts that delay
(clamping at zero) and advances `currentFrame` by exactly one modulo
`Frames`; otherwise it changes nothing else.  The cursor never moves by
more than one position per call, however large Δt is. -/
theorem step_single_advance (g : GifImage) (dt : ℚ) (hdt : 0 ≤ dt) :
    ((g.Step dt).currentFrame = g.currentFrame ∨
      (g.Step dt).currentFrame = (g.currentFrame + 1) % g.frames) ∧
    (g.lastFrameTime + dt * 100 < (g.CurrentTiming : ℚ) →
      g.Step dt = { g with lastFrameTime := g.lastFrameTime + dt * 100 }) ∧
    ((g.CurrentTiming : ℚ) ≤ g.lastFrameTime + dt * 100 →
      (g.Step dt).currentFrame = (g.currentFrame + 1) % g.frames ∧
      (g.Step dt).lastFrameTime =
        max 0 (g.lastFrameTime + dt * 100 - (g.CurrentTiming : ℚ))) := by
  have hct : ({ g with lastFrameTime := g.lastFrameTime + dt * 100 } :
      GifImage).CurrentTiming = g.CurrentTiming := rfl
  refine ⟨?_, ?_, ?_⟩
  · simp only [GifImage.Step]
    split
    · right; rfl
    · left; rfl
  · intro hlt
    simp only [GifImage.Step]
    split
    · next hb =>
      exfalso
      rw [hct, sub_nonneg] at hb
      exact absurd hlt (not_lt.mpr hb)
    · rfl
  · intro hge
    have hb : (0:ℚ) ≤ ({ g with lastFrameTime := g.lastFrameTime + dt * 100 } :
        GifImage).lastFrameTime -
        (({ g with lastFrameTime := g.lastFrameTime + dt * 100 } :
          GifImage).CurrentTiming : ℚ) := by
      rw [hct, sub_nonneg]; exact hge
    simp only [GifImage.Step, if_pos hb]
    constructor
    · rfl
    · show (if g.lastFrameTime + dt * 100 - (g.CurrentTiming : ℚ) < 0 then (0:ℚ)
        else g.lastFrameTime + dt * 100 - (g.CurrentTiming : ℚ)) = _
      rw [if_neg (not_lt.mpr (sub_nonneg.mpr hge)),
        max_eq_right (sub_nonneg.mpr hge)]

/-- Witness for C4: the spec's own scenario — delays `[10, 10, 10]`, a
single `Step(50)` (5000 hundredths) moves the cursor forward by exactly
one position, to index 1, not five. -/
theorem step_single_advance_w :
    (0:ℚ) ≤ 50 ∧ (player3.Step 50).currentFrame = 1 := by
  refine ⟨by norm_num, ?_⟩
  have hct : player3.CurrentTiming = 10 := rfl
  have h := (step_single_advance player3 50 (by norm_num)).2.2
  have h10 : (player3.CurrentTiming : ℚ) ≤ player3.lastFrameTime + 50 * 100 := by
    rw [hct]; show (10:ℚ) ≤ 0 + 50 * 100; norm_num
  have h2 := (h h10).1
  simpa [player3] using h2

/-!
## Claim C8
-/

/-- C8: when the current frame's delay is zero or negative, a `Step` call
(a total function — no division, no loop) with a nonnegative timing buffer
and Δt ≥ 0 advances the cursor by exactly one position modulo `Frames`
("advance immediately"), and the new timing buffer is the old one plus
Δt × 100 minus the delay — no clamping fires and no second advance can
occur within the call. -/
theorem step_zero_delay_advances_once (g : GifImage) (dt : ℚ)
    (hd : g.CurrentTiming ≤ 0) (ht : 0 ≤ g.lastFrameTime) (hdt : 0 ≤ dt) :
    (g.Step dt).currentFrame = (g.currentFrame + 1) % g.frames ∧
    (g.Step dt).lastFrameTime =
      g.lastFrameTime + dt * 100 - (g.CurrentTiming : ℚ) := by
  have hdq : (g.CurrentTiming : ℚ) ≤ 0 := by exact_mod_cast hd
  have htot : (0:ℚ) ≤ g.lastFrameTime + dt * 100 := by positivity
  have hge : (g.CurrentTiming : ℚ) ≤ g.lastFrameTime + dt * 100 :=
    le_trans hdq htot
  have h := (step_single_advance g dt hdt).2.2 hge
  refine ⟨h.1, ?_⟩
  rw [h.2, max_eq_right (sub_nonneg.mpr hge)]

/-- Witness for C8: a player whose active frame has delay 0; a single
`Step(0)` advances the cursor from 0 to 1 and leaves the buffer at 0. -/
theorem step_zero_delay_advances_once_w :
    playerZeroDelay.CurrentTiming ≤ 0 ∧
    (playerZeroDelay.Step 0).currentFrame = 1 ∧
    (playerZeroDelay.Step 0).lastFrameTime = 0 := by
  have h := step_zero_delay_advances_once playerZeroDelay 0
    (by norm_num [playerZeroDelay, GifImage.CurrentTiming]) (le_refl 0) (le_refl 0)
  refine ⟨by norm_num [playerZeroDelay, GifImage.CurrentTiming], ?_, ?_⟩
  · have := h.1
    simpa [playerZeroDelay] using this
  · have := h.2
    rw [this]
    norm_num [playerZeroDelay, GifImage.CurrentTiming]

/-!
## Dimension lemmas and claim C6
-/

lemma dimStep_lowestX (acc : DimAcc) (f : Frame) :
    (dimStep acc f).lowestX = min acc.lowestX f.rect.minX := by
  dsimp only [dimStep]
  split <;> omega

lemma dimStep_lowestY (acc : DimAcc) (f : Frame) :
    (dimStep acc f).lowestY = min acc.lowestY f.rect.minY := by
  dsimp only [dimStep]
  split <;> omega

lemma dimStep_highestX (acc : DimAcc) (f : Frame) :
    (dimStep acc f).highestX = max acc.highestX f.rect.maxX := by
  dsimp only [dimStep]
  split <;> omega

lemma dimStep_highestY (acc : DimAcc) (f : Frame) :
    (dimStep acc f).highestY = max acc.highestY f.rect.maxY := by
  dsimp only [dimStep]
  split <;> omega

lemma foldl_dimStep (images : List Frame) : ∀ acc : DimAcc,
    images.foldl dimStep acc =
      ⟨(images.map (fun f => f.rect.minX)).foldl min acc.lowestX,
       (images.map (fun f => f.rect.minY)).foldl min acc.lowestY,
       (images.map (fun f => f.rect.maxX)).foldl max acc.highestX,
       (images.map (fun f => f.rect.maxY)).foldl max acc.highestY⟩ := by
  induction images with
  | nil => intro acc; rfl
  | cons f rest ih =>
    intro acc
    rw [List.foldl_cons, ih (dimStep acc f), dimStep_lowestX, dimStep_lowestY,
      dimStep_highestX, dimStep_highestY]
    simp only [List.map_cons, List.foldl_cons]

/-- C6 counterexample: a single frame with rectangle `(1,1)-(3,3)` — the
bounding box of the rectangles alone is 2 × 2, but `getGifDimensions`
returns 3 × 3 because its accumulators start at the origin. -/
theorem dims_bounding_box_counterexample :
    getGifDimensions [offsetF] = (3, 3) ∧
    offsetF.rect.maxX - offsetF.rect.minX = 2 ∧
    offsetF.rect.maxY - offsetF.rect.minY = 2 ∧
    ((3, 3) : Int × Int) ≠ ((2, 2) : Int × Int) := by
  refine ⟨rfl, rfl, rfl, by decide⟩

/-- C6 amended: the animation's dimensions are the bounding box of all
frame rectangles *and the origin*: width is the maximum of 0 and all
`Max.X` minus the minimum of 0 and all `Min.X` (the four accumulators
start at zero), and height likewise for Y. -/
theorem dims_include_origin (images : List Frame) :
    getGifDimensions images =
      ((images.map (fun f => f.rect.maxX)).foldl max 0 -
        (images.map (fun f => f.rect.minX)).foldl min 0,
       (images.map (fun f => f.rect.maxY)).foldl max 0 -
        (images.map (fun f => f.rect.minY)).foldl min 0) := by
  show (let acc := images.foldl dimStep ⟨0, 0, 0, 0⟩
    ((acc.highestX - acc.lowestX, acc.highestY - acc.lowestY) : Int × Int)) = _
  rw [foldl_dimStep images ⟨0, 0, 0, 0⟩]

/-!
## Claim C7
-/

/-- C7: from a freshly constructed player over at least one frame, any
finite sequence of valid calls (`Step` with Δt ≥ 0, `NextFrame`, `Reset`)
keeps `currentFrame` strictly below the frame count and `lastFrameTime`
nonnegative; moreover advancing from the last frame wraps the cursor to 0,
never out of range. -/
theorem playback_invariant (g0 : GifImage) (hframes : 1 ≤ g0.frames)
    (hcf : g0.currentFrame = 0) (hlt : g0.lastFrameTime = 0)
    (ops : List PlayerOp) (hops : ∀ op ∈ ops, ValidOp op) :
    (applyOps g0 ops).currentFrame < g0.frames ∧
    0 ≤ (applyOps g0 ops).lastFrameTime ∧
    (∀ p : GifImage, p.frames = g0.frames → p.currentFrame + 1 = g0.frames →
      p.NextFrame.currentFrame = 0) := by
  have h0 : PlayerInv g0.frames g0 := by
    refine ⟨?_, ?_, rfl⟩
    · rw [hcf]; exact hframes
    · rw [hlt]
  have h := applyOps_inv g0.frames hframes ops g0 hops h0
  refine ⟨h.1, h.2.1, ?_⟩
  intro p hpfr hpcf
  show (p.currentFrame + 1) % p.frames = 0
  rw [hpfr, hpcf]
  exact Nat.mod_self _

/-- Witness for C7: a three-frame player driven through a step, a frame
advance, a reset and another step stays in range with a nonnegative
timing buffer. -/
theorem playback_invariant_w :
    (applyOps player3 [PlayerOp.step 50, PlayerOp.next, PlayerOp.reset,
      PlayerOp.step 7]).currentFrame < 3 ∧
    0 ≤ (applyOps player3 [PlayerOp.step 50, PlayerOp.next, PlayerOp.reset,
      PlayerOp.step 7]).lastFrameTime := by
  have h := playback_invariant player3 (by norm_num [player3]) rfl rfl
    [PlayerOp.step 50, PlayerOp.next, PlayerOp.reset, PlayerOp.step 7]
    (by
      intro op hop
      fin_cases hop <;> simp [ValidOp])
  exact ⟨h.1, h.2.1⟩

/-!
## Registry lemmas and claim C9
-/

lemma take_set_of_le (a : Option Nat) {n m : Nat} (l : Registry) (h : m ≤ n) :
    (l.set n a).take m = l.take m :=
  List.ext_getElem? fun i => by
    rw [List.getElem?_take, List.getElem?_take]
    split
    · next h' => rw [List.getElem?_set_ne (by omega)]
    · rfl

lemma dropLast_set_last (M : Registry) (v : Option Nat) :
    (M.set (M.length - 1) v).dropLast = M.dropLast := by
  rw [List.dropLast_eq_take, List.dropLast_eq_take, List.length_set]
  exact take_set_of_le v M (le_refl _)

lemma count_filterMap_id (l : Registry) (t : Nat) :
    (l.filterMap id).count t = l.count (some t) := by
  induction l with
  | nil => rfl
  | cons o rest ih =>
    cases o with
    | none => simpa [List.count_cons] using ih
    | some a =>
      simp only [List.filterMap_cons, id, List.count_cons, ih]
      by_cases hat : a = t
      · simp [hat]
      · simp [hat, fun he : some a = some t => hat (Option.some.injEq a t ▸ he)]

lemma count_cons_eq (a b : Option Nat) (l : Registry) :
    (b :: l).count a = l.count a + (if b = a then 1 else 0) := by
  rw [List.count_cons]
  by_cases hba : b = a <;> simp [hba]

lemma removeUnloadable_not_mem (reg : Registry) (u : Nat)
    (h : some u ∉ reg) : removeUnloadable false reg u = reg := by
  have hf : reg.findIdx? (fun slot => slot == some u) = none := by
    rw [List.findIdx?_eq_none_iff]
    intro x hx
    cases hd : x == some u
    · rfl
    · exact absurd (eq_of_beq hd ▸ hx) h
  simp [removeUnloadable, hf]

lemma count_removeUnloadable (reg : Registry) (u : Nat) (h : some u ∈ reg) :
    (removeUnloadable false reg u).count (some u) + 1 = reg.count (some u) := by
  have hex : ∃ x, x ∈ reg ∧ (x == some u) = true := ⟨some u, h, by simp⟩
  have hfi := @List.findIdx?_eq_some_of_exists _ reg (fun slot => slot == some u) hex
  obtain ⟨hilt, hfidx⟩ := List.findIdx?_eq_some_iff_findIdx_eq.mp hfi
  set i := reg.findIdx (fun slot => slot == some u) with hidef
  have hregi : reg[i] = some u := by
    have hr := @List.findIdx_getElem _ (fun slot => slot == some u) reg hilt
    exact eq_of_beq hr
  have hne : reg ≠ [] := by
    intro he; rw [he] at hilt; exact absurd hilt (by simp)
  -- the element swapped in from the tail is the list's last element
  obtain ⟨z, hz⟩ : ∃ z, reg.getLast? = some z := by
    cases hl : reg.getLast? with
    | none => exact absurd (List.getLast?_eq_none_iff.mp hl) hne
    | some z => exact ⟨z, rfl⟩
  have hzD : reg.getLastD none = z := by
    rw [List.getLastD_eq_getLast?, hz]
    rfl
  simp only [removeUnloadable, Bool.false_eq_true, if_false, hfi, hzD]
  rw [show reg.length = (reg.set i z).length from (List.length_set reg i z).symm,
    dropLast_set_last]
  set M := reg.set i z with hM
  have hMlen : M.length = reg.length := List.length_set reg i z
  have hMne : M ≠ [] := by
    intro he
    rw [he] at hMlen
    rw [← hMlen] at hilt
    exact absurd hilt (by simp)
  -- the last element of the swapped list is still `z`
  have hMlast : M.getLast? = some z := by
    rw [List.getLast?_eq_getElem?, hMlen]
    by_cases hieq : i = reg.length - 1
    · rw [hM, ← hieq]
      exact List.getElem?_set_self hilt
    · rw [hM, List.getElem?_set_ne hieq, ← List.getLast?_eq_getElem?, hz]
  -- counting through `dropLast`
  have hsplitM := List.dropLast_concat_getLast hMne
  have hMgl : M.getLast hMne = z := by
    have hgl := List.getLast?_eq_getLast M hMne
    rw [hMlast] at hgl
    exact (Option.some.injEq _ _ ▸ hgl.symm)
  have hcM : M.count (some u) =
      M.dropLast.count (some u) + (if z = some u then 1 else 0) := by
    conv_lhs => rw [← hsplitM]
    rw [List.count_append, hMgl, count_cons_eq, List.count_nil]
    omega
  -- counting through the take/drop decomposition at index `i`
  have hset := List.set_eq_take_cons_drop z hilt
  have hcMset : M.count (some u) = (reg.take i).count (some u) +
      ((if z = some u then 1 else 0) + (reg.drop (i + 1)).count (some u)) := by
    rw [hM, hset, List.count_append, count_cons_eq]
    omega
  have hreg_split : reg.count (some u) = (reg.take i).count (some u) +
      (1 + (reg.drop (i + 1)).count (some u)) := by
    conv_lhs => rw [← List.take_append_drop i reg, ← List.getElem_cons_drop reg i hilt]
    rw [List.count_append, count_cons_eq, hregi, if_pos rfl]
    omega
  omega

/-!
## The per-pixel loop invariant
-/

lemma updateF_self (f : Nat → Color) (i : Nat) (c : Color) :
    updateF f i c i = c := by
  simp [updateF]

lemma updateF_of_ne (f : Nat → Color) (i : Nat) (c : Color) (j : Nat)
    (h : j ≠ i) : updateF f i c j = f j := by
  simp [updateF, h]

lemma frameInv_write (frames : List Frame) (w disp0 i d : Nat)
    (clum0 : Nat → Color) (prev0 n : Nat) (st : RState) (c : Color) (p2 : Nat)
    (hst : FrameInv frames w disp0 i d clum0 prev0 n st)
    (hc : c = resolveColor frames disp0 i d prev0 (clum0 n) (n % w) (n / w))
    (hcl : c = clumAfter frames disp0 i d prev0 (clum0 n) (n % w) (n / w))
    (hp : p2 = if (d = 0 ∨ d = 1) ∧ 0 < n + 1 then i else prev0) :
    FrameInv frames w disp0 i d clum0 prev0 (n + 1)
      ⟨updateF st.pixels n c, updateF st.clum n c, p2⟩ := by
  obtain ⟨hp1, hp2, hc1, hc2, _⟩ := hst
  refine ⟨?_, ?_, ?_, ?_, hp⟩
  · intro j hj
    dsimp only
    rcases Nat.lt_succ_iff_lt_or_eq.mp hj with hlt | heq
    · rw [updateF_of_ne _ _ _ _ (Nat.ne_of_lt hlt)]
      exact hp1 j hlt
    · subst heq
      rw [updateF_self]
      exact hc
  · intro j hj
    dsimp only
    rw [updateF_of_ne _ _ _ _ (by omega)]
    exact hp2 j (by omega)
  · intro j hj
    dsimp only
    rcases Nat.lt_succ_iff_lt_or_eq.mp hj with hlt | heq
    · rw [updateF_of_ne _ _ _ _ (Nat.ne_of_lt hlt)]
      exact hc1 j hlt
    · subst heq
      rw [updateF_self]
      exact hcl
  · intro j hj
    dsimp only
    rw [updateF_of_ne _ _ _ _ (by omega)]
    exact hc2 j (by omega)

lemma pixelBody_inv (frames : List Frame) (w disp0 i d : Nat)
    (clum0 : Nat → Color) (prev0 : Nat) (x y : Nat) (hx : x < w) (st : RState)
    (hst : FrameInv frames w disp0 i d clum0 prev0 (x + y * w) st) :
    FrameInv frames w disp0 i d clum0 prev0 (x + y * w + 1)
      (pixelBody frames w disp0 i d st x y) := by
  have hw : 0 < w := lt_of_le_of_lt (Nat.zero_le x) hx
  have hmod : (x + y * w) % w = x := by
    rw [Nat.add_mul_mod_self_right, Nat.mod_eq_of_lt hx]
  have hdiv : (x + y * w) / w = y := by
    rw [Nat.add_mul_div_right _ _ hw, Nat.div_eq_of_lt hx, Nat.zero_add]
  have hprev := hst.2.2.2.2
  by_cases hd0 : d = 0
  · subst hd0
    have hred : pixelBody frames w disp0 i 0 st x y =
        ⟨updateF st.pixels (x + y * w) (newColor ((frameAt frames i).sample x y)),
         updateF st.clum (x + y * w) (newColor ((frameAt frames i).sample x y)),
         i⟩ := rfl
    rw [hred]
    refine frameInv_write frames w disp0 i 0 clum0 prev0 _ st _ _ hst ?_ ?_ (by simp)
    · rw [hmod, hdiv]
      rfl
    · rw [hmod, hdiv]
      rfl
  by_cases hd1 : d = 1
  · subst hd1
    have hred : pixelBody frames w disp0 i 1 st x y =
        if 0 < ((frameAt frames i).sample x y).alpha then
          ⟨updateF st.pixels (x + y * w) (newColor ((frameAt frames i).sample x y)),
           updateF st.clum (x + y * w) (newColor ((frameAt frames i).sample x y)),
           i⟩
        else
          ⟨updateF st.pixels (x + y * w) (st.clum (x + y * w)), st.clum, i⟩ := rfl
    rw [hred]
    by_cases halpha : 0 < ((frameAt frames i).sample x y).alpha
    · rw [if_pos halpha]
      refine frameInv_write frames w disp0 i 1 clum0 prev0 _ st _ _ hst ?_ ?_ (by simp)
      · rw [hmod, hdiv]
        show newColor ((frameAt frames i).sample x y) =
          if 0 < ((frameAt frames i).sample x y).alpha then
            newColor ((frameAt frames i).sample x y) else clum0 (x + y * w)
        rw [if_pos halpha]
      · rw [hmod, hdiv]
        show newColor ((frameAt frames i).sample x y) =
          if 0 < ((frameAt frames i).sample x y).alpha then
            newColor ((frameAt frames i).sample x y) else clum0 (x + y * w)
        rw [if_pos halpha]
    · rw [if_neg halpha]
      obtain ⟨hp1, hp2, hc1, hc2, _⟩ := hst
      have hval : resolveColor frames disp0 i 1 prev0 (clum0 (x + y * w))
          ((x + y * w) % w) ((x + y * w) / w) = clum0 (x + y * w) := by
        rw [hmod, hdiv]
        show (if 0 < ((frameAt frames i).sample x y).alpha then
          newColor ((frameAt frames i).sample x y) else clum0 (x + y * w)) = _
        rw [if_neg halpha]
      refine ⟨?_, ?_, ?_, ?_, by simp⟩
      · intro j hj
        dsimp only
        rcases Nat.lt_succ_iff_lt_or_eq.mp hj with hlt | heq
        · rw [updateF_of_ne _ _ _ _ (Nat.ne_of_lt hlt)]
          exact hp1 j hlt
        · subst heq
          rw [updateF_self, hc2 _ (le_refl _), hval]
      · intro j hj
        dsimp only
        rw [updateF_of_ne _ _ _ _ (by omega)]
        exact hp2 j (by omega)
      · intro j hj
        dsimp only
        rcases Nat.lt_succ_iff_lt_or_eq.mp hj with hlt | heq
        · exact hc1 j hlt
        · subst heq
          rw [hc2 _ (le_refl _)]
          show _ = clumAfter frames disp0 i 1 prev0 (clum0 (x + y * w))
            ((x + y * w) % w) ((x + y * w) / w)
          rw [clumAfter, if_pos (by omega), hval]
      · intro j hj
        dsimp only
        exact hc2 j (by omega)
  by_cases hd2 : d = 2
  · subst hd2
    have hred : pixelBody frames w disp0 i 2 st x y =
        ⟨updateF st.pixels (x + y * w)
           (newColor (if disp0 = 1 ∧ ((frameAt frames i).sample x y).alpha = 0 then
             (frameAt frames 0).sample x y else (frameAt frames i).sample x y)),
         updateF st.clum (x + y * w)
           (newColor (if disp0 = 1 ∧ ((frameAt frames i).sample x y).alpha = 0 then
             (frameAt frames 0).sample x y else (frameAt frames i).sample x y)),
         st.prev⟩ := rfl
    rw [hred]
    have hsp : st.prev = prev0 := by
      rw [hprev]
      simp
    rw [hsp]
    refine frameInv_write frames w disp0 i 2 clum0 prev0 _ st _ _ hst ?_ ?_ (by simp)
    · rw [hmod, hdiv]
      rfl
    · rw [hmod, hdiv]
      rfl
  by_cases hd3 : d = 3
  · subst hd3
    have hred : pixelBody frames w disp0 i 3 st x y =
        ⟨updateF st.pixels (x + y * w)
           (newColor (if ((frameAt frames i).sample x y).alpha = 0 then
             (frameAt frames st.prev).sample x y else (frameAt frames i).sample x y)),
         updateF st.clum (x + y * w)
           (newColor (if ((frameAt frames i).sample x y).alpha = 0 then
             (frameAt frames st.prev).sample x y else (frameAt frames i).sample x y)),
         st.prev⟩ := rfl
    have hsp : st.prev = prev0 := by
      rw [hprev]
      simp
    rw [hred, hsp]
    refine frameInv_write frames w disp0 i 3 clum0 prev0 _ st _ _ hst ?_ ?_ (by simp)
    · rw [hmod, hdiv]
      rfl
    · rw [hmod, hdiv]
      rfl
  -- unrecognised disposal code: the switch matches no case
  have hred : pixelBody frames w disp0 i d st x y = st := by
    simp only [pixelBody, if_neg hd0, if_neg hd1, if_neg hd2, if_neg hd3]
  rw [hred]
  obtain ⟨hp1, hp2, hc1, hc2, _⟩ := hst
  have hd4 : ¬ d ≤ 3 := by omega
  refine ⟨?_, ?_, ?_, ?_, ?_⟩
  · intro j hj
    rcases Nat.lt_succ_iff_lt_or_eq.mp hj with hlt | heq
    · exact hp1 j hlt
    · subst heq
      rw [hp2 _ (le_refl _)]
      show _ = resolveColor frames disp0 i d prev0 (clum0 (x + y * w))
        ((x + y * w) % w) ((x + y * w) / w)
      rw [resolveColor]
      simp only [if_neg hd0, if_neg hd1, if_neg hd2, if_neg hd3]
  · intro j hj
    exact hp2 j (by omega)
  · intro j hj
    rcases Nat.lt_succ_iff_lt_or_eq.mp hj with hlt | heq
    · exact hc1 j hlt
    · subst heq
      rw [hc2 _ (le_refl _), clumAfter, if_neg hd4]
  · intro j hj
    exact hc2 j (by omega)
  · rw [hprev]
    have hcond : ¬ (d = 0 ∨ d = 1) := by
      rintro (h | h)
      · exact hd0 h
      · exact hd1 h
    simp [hcond]

lemma row_inv (frames : List Frame) (w disp0 i d : Nat)
    (clum0 : Nat → Color) (prev0 : Nat) (y : Nat) :
    ∀ k, k ≤ w → ∀ st, FrameInv frames w disp0 i d clum0 prev0 (y * w) st →
      FrameInv frames w disp0 i d clum0 prev0 (y * w + k)
        ((List.range k).foldl
          (fun st2 x => pixelBody frames w disp0 i d st2 x y) st) := by
  intro k
  induction k with
  | zero =>
    intro _ st hst
    simpa using hst
  | succ k ih =>
    intro hk st hst
    rw [List.range_succ, List.foldl_append, List.foldl_cons, List.foldl_nil]
    have h1 := ih (Nat.le_of_succ_le hk) st hst
    have h2 : FrameInv frames w disp0 i d clum0 prev0 (k + y * w)
        ((List.range k).foldl
          (fun st2 x => pixelBody frames w disp0 i d st2 x y) st) := by
      rw [show k + y * w = y * w + k from Nat.add_comm k (y * w)]
      exact h1
    have h3 := pixelBody_inv frames w disp0 i d clum0 prev0 k y
      (Nat.lt_of_succ_le hk) _ h2
    rw [show y * w + (k + 1) = k + y * w + 1 from by omega]
    exact h3

lemma rows_inv (frames : List Frame) (w disp0 i d : Nat)
    (clum0 : Nat → Color) (prev0 : Nat) :
    ∀ (m : Nat) (st), FrameInv frames w disp0 i d clum0 prev0 0 st →
      FrameInv frames w disp0 i d clum0 prev0 (m * w)
        ((List.range m).foldl
          (fun st y => (List.range w).foldl
            (fun st2 x => pixelBody frames w disp0 i d st2 x y) st) st) := by
  intro m
  induction m with
  | zero =>
    intro st hst
    simpa using hst
  | succ m ih =>
    intro st hst
    rw [List.range_succ, List.foldl_append, List.foldl_cons, List.foldl_nil]
    have h1 := ih st hst
    have h2 := row_inv frames w disp0 i d clum0 prev0 m w (le_refl w) _ h1
    rw [show (m + 1) * w = m * w + w from Nat.succ_mul m w]
    exact h2

lemma processFrame_inv (frames : List Frame) (w h disp0 i d : Nat)
    (clum0 : Nat → Color) (prev0 : Nat) :
    FrameInv frames w disp0 i d clum0 prev0 (h * w)
      (processFrame frames w h disp0 i d clum0 prev0) := by
  apply rows_inv
  refine ⟨?_, ?_, ?_, ?_, ?_⟩
  · intro j hj
    exact absurd hj (Nat.not_lt_zero j)
  · intro j _
    rfl
  · intro j hj
    exact absurd hj (Nat.not_lt_zero j)
  · intro j _
    rfl
  · simp

lemma processFrame_pixels (frames : List Frame) (w h disp0 i d : Nat)
    (clum0 : Nat → Color) (prev0 : Nat) (j : Nat) (hj : j < w * h) :
    (processFrame frames w h disp0 i d clum0 prev0).pixels j =
      resolveColor frames disp0 i d prev0 (clum0 j) (j % w) (j / w) :=
  (processFrame_inv frames w h disp0 i d clum0 prev0).1 j
    (by rw [Nat.mul_comm h w]; exact hj)

lemma processFrame_clum (frames : List Frame) (w h disp0 i d : Nat)
    (clum0 : Nat → Color) (prev0 : Nat) (j : Nat) (hj : j < w * h) :
    (processFrame frames w h disp0 i d clum0 prev0).clum j =
      clumAfter frames disp0 i d prev0 (clum0 j) (j % w) (j / w) :=
  (processFrame_inv frames w h disp0 i d clum0 prev0).2.2.1 j
    (by rw [Nat.mul_comm h w]; exact hj)

lemma processFrame_prev (frames : List Frame) (w h disp0 i d : Nat)
    (clum0 : Nat → Color) (prev0 : Nat) :
    (processFrame frames w h disp0 i d clum0 prev0).prev =
      if (d = 0 ∨ d = 1) ∧ 0 < w * h then i else prev0 := by
  have hp := (processFrame_inv frames w h disp0 i d clum0 prev0).2.2.2.2
  rw [hp, Nat.mul_comm h w]

/-!
## Unfolding the outer frame loop
-/

lemma resolveState_succ (frames : List Frame) (disposal : List Nat)
    (w h k : Nat) :
    resolveState frames disposal w h (k + 1) =
      resolveStep frames disposal w h (resolveState frames disposal w h k) k := by
  unfold resolveState
  rw [List.range_succ, List.foldl_append, List.foldl_cons, List.foldl_nil]

lemma resolveState_images_length (frames : List Frame) (disposal : List Nat)
    (w h k : Nat) :
    (resolveState frames disposal w h k).images.length = k := by
  induction k with
  | zero => rfl
  | succ k ih =>
    rw [resolveState_succ]
    simp [resolveStep, ih]

lemma getD_append_singleton (l : List (Nat → Color)) (x : Nat → Color)
    (dfl : Nat → Color) (n : Nat) (hn : n = l.length) :
    (l ++ [x]).getD n dfl = x := by
  subst hn
  have hx : (l ++ [x])[l.length]? = some x := by
    rw [List.getElem?_append_right (le_refl _)]
    simp
  rw [List.getD_eq_getElem?_getD, hx]
  rfl

lemma resolveState_images_getD (frames : List Frame) (disposal : List Nat)
    (w h i : Nat) (dfl : Nat → Color) :
    (resolveState frames disposal w h (i + 1)).images.getD i dfl =
      (processFrame frames w h (disposal.getD 0 0) i (disposal.getD i 0)
        (resolveState frames disposal w h i).clum
        (resolveState frames disposal w h i).prev).pixels := by
  rw [resolveState_succ]
  show ((resolveState frames disposal w h i).images ++ [_]).getD i dfl = _
  exact getD_append_singleton _ _ _ _
    (resolveState_images_length frames disposal w h i).symm

lemma resolveState_clum_succ (frames : List Frame) (disposal : List Nat)
    (w h i : Nat) :
    (resolveState frames disposal w h (i + 1)).clum =
      (processFrame frames w h (disposal.getD 0 0) i (disposal.getD i 0)
        (resolveState frames disposal w h i).clum
        (resolveState frames disposal w h i).prev).clum := by
  rw [resolveState_succ]
  rfl

lemma resolveState_prev_succ (frames : List Frame) (disposal : List Nat)
    (w h i : Nat) :
    (resolveState frames disposal w h (i + 1)).prev =
      (processFrame frames w h (disposal.getD 0 0) i (disposal.getD i 0)
        (resolveState frames disposal w h i).clum
        (resolveState frames disposal w h i).prev).prev := by
  rw [resolveState_succ]
  rfl

/-!
## Claim C1
-/

/-- C1 counterexample: a 1×1 animation `[None red, RestoreBackground green]`.
After processing frame 1 (disposal `RestoreBackground`) the accumulation
buffer (`clumative`) holds green, no longer the red it held before that
frame: `RestoreBackground` frames do write the accumulation buffer. -/
theorem accumulation_changed_by_restore_counterexample :
    ([0, 2] : List Nat).getD 1 0 = 2 ∧
    (resolveState [redF, greenF] [0, 2] 1 1 2).clum 0 = ⟨0, 255, 0, 255⟩ ∧
    (resolveState [redF, greenF] [0, 2] 1 1 1).clum 0 = ⟨255, 0, 0, 255⟩ ∧
    (⟨0, 255, 0, 255⟩ : Color) ≠ ⟨255, 0, 0, 255⟩ := by
  decide

/-- C1 amended: after processing a frame whose disposal is
`RestoreBackground` or `RestorePrevious`, every in-range slot of the
accumulation buffer equals that frame's resolved output — all four
disposal branches store the resolved pixel into `clumative`; the buffer is
not left unchanged. -/
theorem accumulation_written_by_restore_frames (frames : List Frame)
    (disposal : List Nat) (w h i j : Nat)
    (hd : disposal.getD i 0 = 2 ∨ disposal.getD i 0 = 3) (hj : j < w * h) :
    (resolveState frames disposal w h (i + 1)).clum j =
      ((resolveState frames disposal w h (i + 1)).images.getD i
        (fun _ => czero)) j := by
  rw [resolveState_clum_succ, resolveState_images_getD,
    processFrame_clum _ _ _ _ _ _ _ _ j hj,
    processFrame_pixels _ _ _ _ _ _ _ _ j hj]
  rcases hd with h2 | h3
  · rw [h2, clumAfter, if_pos (by omega : (2:Nat) ≤ 3)]
  · rw [h3, clumAfter, if_pos (by omega : (3:Nat) ≤ 3)]

/-- Witness for the amended C1, on the counterexample animation. -/
theorem accumulation_written_by_restore_frames_w :
    (([0, 2] : List Nat).getD 1 0 = 2 ∨ ([0, 2] : List Nat).getD 1 0 = 3) ∧
    (0 : Nat) < 1 * 1 ∧
    (resolveState [redF, greenF] [0, 2] 1 1 2).clum 0 =
      ((resolveState [redF, greenF] [0, 2] 1 1 2).images.getD 1
        (fun _ => czero)) 0 :=
  ⟨Or.inl (by decide), by decide,
    accumulation_written_by_restore_frames [redF, greenF] [0, 2] 1 1 1 0
      (Or.inl (by decide)) (by decide)⟩

/-!
## Claim C2
-/

/-- C2 counterexample: a 1×1 animation `[None red, RestoreBackground blue,
RestorePrevious transparent]`.  After frame 1 (disposal
`RestoreBackground`) the `previousNonDisposed` reference still points at
frame 0, not frame 1, and frame 2's transparent pixel is consequently
filled with frame 0's red, not frame 1's blue. -/
theorem prev_not_updated_by_restoreBackground_counterexample :
    ([0, 2, 3] : List Nat).getD 1 0 = 2 ∧
    (resolveState [redF, blueF, clearF] [0, 2, 3] 1 1 2).prev = 0 ∧
    (0 : Nat) ≠ 1 ∧
    ((resolveState [redF, blueF, clearF] [0, 2, 3] 1 1 3).images.getD 2
      (fun _ => czero)) 0 = newColor (redF.sample 0 0) ∧
    newColor (redF.sample 0 0) ≠ newColor (blueF.sample 0 0) := by
  decide

/-- C2 amended: `previousNonDisposed` is retargeted to the current frame
only when the frame's disposal is `None` (0) or `DontDispose` (1) (and the
frame has at least one pixel); `RestoreBackground` and `RestorePrevious`
frames leave it unchanged.  A `RestorePrevious` frame's fully transparent
pixels are therefore filled from the frame it pointed at before the frame
was processed — the most recent frame whose disposal was `None` or
`DontDispose`, not merely "not `RestorePrevious`". -/
theorem prev_updated_only_by_none_and_dontDispose (frames : List Frame)
    (disposal : List Nat) (w h i j : Nat) :
    ((resolveState frames disposal w h (i + 1)).prev =
      if (disposal.getD i 0 = 0 ∨ disposal.getD i 0 = 1) ∧ 0 < w * h then i
      else (resolveState frames disposal w h i).prev) ∧
    (disposal.getD i 0 = 3 → j < w * h →
      ((frameAt frames i).sample (j % w) (j / w)).alpha = 0 →
      ((resolveState frames disposal w h (i + 1)).images.getD i
        (fun _ => czero)) j =
        newColor ((frameAt frames
          (resolveState frames disposal w h i).prev).sample (j % w) (j / w))) := by
  constructor
  · rw [resolveState_prev_succ, processFrame_prev]
  · intro hd3 hj halpha
    rw [resolveState_images_getD, processFrame_pixels _ _ _ _ _ _ _ _ j hj, hd3]
    show newColor (if ((frameAt frames i).sample (j % w) (j / w)).alpha = 0 then
        (frameAt frames (resolveState frames disposal w h i).prev).sample
          (j % w) (j / w)
      else (frameAt frames i).sample (j % w) (j / w)) = _
    rw [if_pos halpha]

/-- Witness for the amended C2, on the counterexample animation: frame 1
(RestoreBackground) does not move the reference, and frame 2's transparent
pixel reads through the reference left in place. -/
theorem prev_updated_only_by_none_and_dontDispose_w :
    (resolveState [redF, blueF, clearF] [0, 2, 3] 1 1 2).prev =
      (if (([0, 2, 3] : List Nat).getD 1 0 = 0 ∨
          ([0, 2, 3] : List Nat).getD 1 0 = 1) ∧ 0 < 1 * 1 then 1
        else (resolveState [redF, blueF, clearF] [0, 2, 3] 1 1 1).prev) ∧
    ((resolveState [redF, blueF, clearF] [0, 2, 3] 1 1 3).images.getD 2
      (fun _ => czero)) 0 =
      newColor ((frameAt [redF, blueF, clearF]
        (resolveState [redF, blueF, clearF] [0, 2, 3] 1 1 2).prev).sample
          (0 % 1) (0 / 1)) :=
  ⟨(prev_updated_only_by_none_and_dontDispose [redF, blueF, clearF]
      [0, 2, 3] 1 1 1 0).1,
   (prev_updated_only_by_none_and_dontDispose [redF, blueF, clearF]
      [0, 2, 3] 1 1 2 0).2 (by decide) (by decide) (by decide)⟩

/-!
## Claim C5
-/

/-- C5: in a `RestoreBackground` frame, a pixel whose sample is opaque
(nonzero alpha) resolves to the frame's own (truncated) sample; a fully
transparent pixel resolves to frame 0's sample exactly when `disposals[0]`
is `DontDispose` (code 1), and otherwise keeps the frame's own transparent
sample — its resolved alpha is 0. -/
theorem restoreBackground_pixel_rule (frames : List Frame)
    (disposal : List Nat) (w h i j : Nat)
    (hd : disposal.getD i 0 = 2) (hj : j < w * h) :
    (((frameAt frames i).sample (j % w) (j / w)).alpha ≠ 0 →
      ((resolveState frames disposal w h (i + 1)).images.getD i
        (fun _ => czero)) j =
        newColor ((frameAt frames i).sample (j % w) (j / w))) ∧
    (((frameAt frames i).sample (j % w) (j / w)).alpha = 0 →
      (disposal.getD 0 0 = 1 →
        ((resolveState frames disposal w h (i + 1)).images.getD i
          (fun _ => czero)) j =
          newColor ((frameAt frames 0).sample (j % w) (j / w))) ∧
      (disposal.getD 0 0 ≠ 1 →
        ((resolveState frames disposal w h (i + 1)).images.getD i
          (fun _ => czero)) j =
          newColor ((frameAt frames i).sample (j % w) (j / w)) ∧
        (((resolveState frames disposal w h (i + 1)).images.getD i
          (fun _ => czero)) j).a = 0)) := by
  rw [resolveState_images_getD, processFrame_pixels _ _ _ _ _ _ _ _ j hj, hd]
  refine ⟨?_, ?_⟩
  · intro halpha
    show newColor (if disposal.getD 0 0 = 1 ∧
        ((frameAt frames i).sample (j % w) (j / w)).alpha = 0 then
        (frameAt frames 0).sample (j % w) (j / w)
      else (frameAt frames i).sample (j % w) (j / w)) = _
    rw [if_neg (fun hcon => halpha hcon.2)]
  · intro halpha
    refine ⟨?_, ?_⟩
    · intro hdisp
      show newColor (if disposal.getD 0 0 = 1 ∧
          ((frameAt frames i).sample (j % w) (j / w)).alpha = 0 then
          (frameAt frames 0).sample (j % w) (j / w)
        else (frameAt frames i).sample (j % w) (j / w)) = _
      rw [if_pos ⟨hdisp, halpha⟩]
    · intro hdisp
      constructor
      · show newColor (if disposal.getD 0 0 = 1 ∧
            ((frameAt frames i).sample (j % w) (j / w)).alpha = 0 then
            (frameAt frames 0).sample (j % w) (j / w)
          else (frameAt frames i).sample (j % w) (j / w)) = _
        rw [if_neg (fun hcon => hdisp hcon.1)]
      · show (newColor (if disposal.getD 0 0 = 1 ∧
            ((frameAt frames i).sample (j % w) (j / w)).alpha = 0 then
            (frameAt frames 0).sample (j % w) (j / w)
          else (frameAt frames i).sample (j % w) (j / w))).a = 0
        rw [if_neg (fun hcon => hdisp hcon.1)]
        show ((frameAt frames i).sample (j % w) (j / w)).alpha % 256 = 0
        rw [halpha]

/-- Witness for C5: the spec's own scenario — a 2×2 all-transparent
`RestoreBackground` frame following a frame 0 with disposal `None`
resolves to a fully transparent pixel (shown at index 3). -/
theorem restoreBackground_pixel_rule_w :
    ([0, 2] : List Nat).getD 1 0 = 2 ∧
    ((frameAt [red2, clear2] 1).sample (3 % 2) (3 / 2)).alpha = 0 ∧
    (((resolveState [red2, clear2] [0, 2] 2 2 2).images.getD 1
      (fun _ => czero)) 3).a = 0 :=
  ⟨by decide, by decide,
    (((restoreBackground_pixel_rule [red2, clear2] [0, 2] 2 2 1 3
      (by decide) (by decide)).2 (by decide)).2 (by decide)).2⟩

/-!
## Dimension sign lemmas and the load claims C3 and C10
-/

lemma foldl_min_le (l : List Int) (a : Int) : l.foldl min a ≤ a := by
  induction l generalizing a with
  | nil => exact le_refl a
  | cons x t ih => exact le_trans (ih (min a x)) (min_le_left a x)

lemma le_foldl_max (l : List Int) (a : Int) : a ≤ l.foldl max a := by
  induction l generalizing a with
  | nil => exact le_refl a
  | cons x t ih => exact le_trans (le_max_left a x) (ih (max a x))

lemma getGifDimensions_nonneg (images : List Frame) :
    0 ≤ (getGifDimensions images).1 ∧ 0 ≤ (getGifDimensions images).2 := by
  show 0 ≤ (images.foldl dimStep ⟨0, 0, 0, 0⟩).highestX -
      (images.foldl dimStep ⟨0, 0, 0, 0⟩).lowestX ∧
    0 ≤ (images.foldl dimStep ⟨0, 0, 0, 0⟩).highestY -
      (images.foldl dimStep ⟨0, 0, 0, 0⟩).lowestY
  rw [foldl_dimStep images ⟨0, 0, 0, 0⟩]
  dsimp only
  have h1 := foldl_min_le (images.map (fun f => f.rect.minX)) 0
  have h2 := foldl_min_le (images.map (fun f => f.rect.minY)) 0
  have h3 := le_foldl_max (images.map (fun f => f.rect.maxX)) 0
  have h4 := le_foldl_max (images.map (fun f => f.rect.maxY)) 0
  omega

/-- C3 counterexample: a successfully opened and decoded animation with
zero frames makes the loader panic (`gif.Image[0]`, index out of range);
it does not return an error of any kind, and it does not construct a
`GifImage`. -/
theorem load_zero_frames_panic_counterexample :
    loadGifFromFile (some (some ⟨[], [], []⟩)) = .panicked "index out of range" ∧
    (∀ g, loadGifFromFile (some (some ⟨[], [], []⟩)) ≠ LoadOutcome.ok g) ∧
    loadGifFromFile (some (some ⟨[], [], []⟩)) ≠ LoadOutcome.fileError ∧
    loadGifFromFile (some (some ⟨[], [], []⟩)) ≠ LoadOutcome.decodeError := by
  have hred : loadGifFromFile (some (some ⟨[], [], []⟩)) =
      LoadOutcome.panicked "index out of range" := rfl
  refine ⟨hred, ?_, ?_, ?_⟩
  · intro g hcontra
    rw [hred] at hcontra
    exact LoadOutcome.noConfusion hcontra
  · intro hcontra
    rw [hred] at hcontra
    exact LoadOutcome.noConfusion hcontra
  · intro hcontra
    rw [hred] at hcontra
    exact LoadOutcome.noConfusion hcontra

/-- C3 amended: the loader performs no structural validation and has no
`InvalidAnimation` error.  Zero frames panic (index out of range on
`gif.Image[0]`); a disposal table shorter than the frame table panics
inside the frame loop; a load only returns `ok` when there is at least one
frame and the disposal table is long enough (the delay table is never
checked); the only error returns are the propagated file-open and decode
errors. -/
theorem load_no_validation (gd : GifData) :
    (gd.images = [] → loadGif gd = .panicked "index out of range") ∧
    (gd.images ≠ [] →
      ¬ ((gd.images.length : Int) >
        (getGifDimensions gd.images).1 * (getGifDimensions gd.images).2) →
      gd.disposalCodes.length < gd.images.length →
      loadGif gd = .panicked "index out of range") ∧
    (∀ g, loadGif gd = .ok g → gd.images ≠ [] ∧
      gd.images.length ≤ gd.disposalCodes.length) ∧
    loadGifFromFile none = .fileError ∧
    loadGifFromFile (some none) = .decodeError := by
  have hnn := getGifDimensions_nonneg gd.images
  refine ⟨?_, ?_, ?_, rfl, rfl⟩
  · intro hempty
    have hzero : ((gd.images.length : Int)) = 0 := by
      rw [hempty]
      rfl
    simp only [loadGif]
    split_ifs with h1 h2 h3
    · exfalso
      rw [hzero] at h1
      exact absurd h1 (not_lt.mpr (mul_nonneg hnn.1 hnn.2))
    · rfl
    · rfl
    · exfalso
      apply h2
      rw [hempty]
      rfl
  · intro hne hngt hshort
    have hne0 : ¬ gd.images.length = 0 :=
      fun h0 => hne (List.length_eq_zero.mp h0)
    simp only [loadGif]
    rw [if_neg hngt, if_neg hne0, if_pos hshort]
  · intro g hok
    simp only [loadGif] at hok
    -- `split_ifs` closes the three panic branches itself (constructor
    -- clash in `hok`); only the `ok` branch survives
    split_ifs at hok with h1 h2 h3
    refine ⟨?_, by omega⟩
    intro he
    apply h2
    rw [he]
    rfl

/-- Witness for the amended C3: one frame but an empty disposal table
panics with an index-out-of-range, not an error return. -/
theorem load_no_validation_w :
    loadGif ⟨[redF], [10], []⟩ = .panicked "index out of range" :=
  (load_no_validation ⟨[redF], [10], []⟩).2.1
    (List.cons_ne_nil _ _) (by decide) (by decide)

/-!
## Claim C10
-/

/-- C10: `make([][]r.Color, frames, w*h)` panics whenever the frame count
exceeds the pixel count per frame (length greater than capacity), so the
loader only completes normally when `frames ≤ w*h` — an undocumented
precondition of the public interface. -/
theorem load_frames_capacity_panic (gd : GifData) :
    ((gd.images.length : Int) >
        (getGifDimensions gd.images).1 * (getGifDimensions gd.images).2 →
      loadGif gd = .panicked "makeslice: len out of range") ∧
    (∀ g, loadGif gd = .ok g →
      (gd.images.length : Int) ≤
        (getGifDimensions gd.images).1 * (getGifDimensions gd.images).2) := by
  constructor
  · intro hgt
    simp only [loadGif]
    rw [if_pos hgt]
  · intro g hok
    simp only [loadGif] at hok
    split_ifs at hok with h1 h2 h3
    exact not_lt.mp h1

set_option maxRecDepth 8000 in
/-- Witness for C10: the claim's own example — 30 frames of a 5×5
animation (30 > 25) panic at the slice allocation. -/
theorem load_frames_capacity_panic_w :
    ((List.replicate 30 f55).length : Int) >
      (getGifDimensions (List.replicate 30 f55)).1 *
        (getGifDimensions (List.replicate 30 f55)).2 ∧
    loadGif ⟨List.replicate 30 f55, List.replicate 30 10, List.replicate 30 0⟩ =
      .panicked "makeslice: len out of range" :=
  ⟨by decide,
    (load_frames_capacity_panic
      ⟨List.replicate 30 f55, List.replicate 30 10, List.replicate 30 0⟩).1
      (by decide)⟩

/-- C9: removing a handle that is not in the registry (never registered,
or already removed) leaves the registry unchanged; the `UnloadAll` sweep
invokes `Unload` exactly once per registered occurrence (so never twice
for one entry — the `unloadingAll` flag freezes the slice during the
sweep); and an entry removed individually beforehand is not invoked by the
sweep: the sweep's invocation count drops by exactly the removed
occurrence. -/
theorem registry_remove_noop_and_sweep_once (reg : Registry) (u : Nat) :
    (some u ∉ reg → removeUnloadable false reg u = reg) ∧
    (unloadAllInvocations reg).count u = reg.count (some u) ∧
    (some u ∈ reg →
      (unloadAllInvocations (removeUnloadable false reg u)).count u + 1 =
        reg.count (some u)) := by
  refine ⟨removeUnloadable_not_mem reg u, count_filterMap_id reg u, ?_⟩
  intro h
  rw [unloadAllInvocations, count_filterMap_id]
  exact count_removeUnloadable reg u h

/-- Witness for C9: on the registry `[some 5, some 7, none, some 9]`,
removing the unregistered handle 4 is a no-op, the sweep invokes handle 7
exactly once, and after removing 7 the sweep no longer invokes it. -/
theorem registry_remove_noop_and_sweep_once_w :
    removeUnloadable false [some 5, some 7, none, some 9] 4 =
      [some 5, some 7, none, some 9] ∧
    (unloadAllInvocations [some 5, some 7, none, some 9]).count 7 = 1 ∧
    (unloadAllInvocations
      (removeUnloadable false [some 5, some 7, none, some 9] 7)).count 7 + 1 = 1 := by
  have h := registry_remove_noop_and_sweep_once [some 5, some 7, none, some 9] 7
  refine ⟨(registry_remove_noop_and_sweep_once [some 5, some 7, none, some 9] 4).1
      (by decide), ?_, ?_⟩
  · have h2 := h.2.1
    rwa [show ([some 5, some 7, none, some 9] : Registry).count (some 7) = 1
      from by decide] at h2
  · have h3 := h.2.2 (by decide)
    rwa [show ([some 5, some 7, none, some 9] : Registry).count (some 7) = 1
      from by decide] at h3

end RGif
